import Mathlib

/-!
Verification of the gh-langs fetch–aggregate pipeline (src/main.go).

Go maps are embedded as association lists `List (String × Int)` whose
update operation mirrors `m[k] = v` (replace in place if the key exists,
append otherwise).  Go map semantics guarantee distinct keys, captured by
the decidable predicate `NodupKeys` where a theorem needs it.  Network
calls (`client.Request` + JSON decode) are embedded as explicit function
parameters returning `Except String _`; `time.Now().AddDate` is the
external time library, so the recency cutoff is passed as an abstract
instant and `computeFilter`'s integer arithmetic is modelled separately.
Go's `int(float64)` conversion truncates toward zero and its `/` and `%`
on integers are T-division, i.e. `Int.tdiv` / `Int.tmod`.
-/

namespace GhLangs

/-- Go's `type Languages map[string]int`, as an association list with Go map
update semantics. -/
abbrev Languages := List (String × Int)

/-- Go's `type LanguagesList []Languages`. -/
abbrev LanguagesList := List Languages

/-- Key lookup in a Go map: the value stored at `k`, if any. -/
def lookupLang (m : Languages) (k : String) : Option Int :=
  (m.find? (fun kv => kv.1 = k)).map (fun kv => kv.2)

/-- Reading `m[k]` in an rvalue position: the stored value, or the zero value `0`
when the key is absent. -/
def getLang (m : Languages) (k : String) : Int :=
  (lookupLang m k).getD 0

/-- The key set of a Go map. -/
def keysOf (m : Languages) : List String :=
  m.map (fun kv => kv.1)

/-- Go map assignment `m[k] = v`: replace the binding in place when `k` is
present, append a new binding otherwise. -/
def setLang (m : Languages) (k : String) (v : Int) : Languages :=
  if (m.find? (fun kv => kv.1 = k)).isSome then
    m.map (fun kv => if kv.1 = k then (k, v) else kv)
  else
    m ++ [(k, v)]

/-- The update `results[lang] += lines` from `sumLanguages`. -/
def addLang (m : Languages) (k : String) (v : Int) : Languages :=
  setLang m k (getLang m k + v)

/-- The inner loop of `sumLanguages`: merge one repository's breakdown
into the accumulator. -/
def mergeInto (acc : Languages) (b : Languages) : Languages :=
  b.foldl (fun r kv => addLang r kv.1 kv.2) acc

/-- Go's `func sumLanguages(list LanguagesList) Languages`. -/
def sumLanguages (list : LanguagesList) : Languages :=
  list.foldl mergeInto []

/-- The Go-map invariant: all keys of the association list are distinct
(a decoded `map[string]int` always satisfies this). -/
def NodupKeys (m : Languages) : Prop :=
  (keysOf m).Nodup

instance (m : Languages) : Decidable (NodupKeys m) := by
  unfold NodupKeys; infer_instance

/-- The total number of bytes the entries of `b` assign to key `k`
(equal to `getLang b k` whenever `b` has distinct keys). -/
def entrySum (b : Languages) (k : String) : Int :=
  ((b.filter (fun kv => kv.1 = k)).map (fun kv => kv.2)).sum

lemma keysOf_nil : keysOf [] = [] := rfl

lemma keysOf_cons (kv : String × Int) (m : Languages) :
    keysOf (kv :: m) = kv.1 :: keysOf m := rfl

lemma keysOf_append (m₁ m₂ : Languages) :
    keysOf (m₁ ++ m₂) = keysOf m₁ ++ keysOf m₂ := by
  simp [keysOf]

lemma lookupLang_nil (k : String) : lookupLang [] k = none := rfl

lemma lookupLang_cons (kv : String × Int) (m : Languages) (k : String) :
    lookupLang (kv :: m) k = if kv.1 = k then some kv.2 else lookupLang m k := by
  by_cases h : kv.1 = k <;> simp [lookupLang, List.find?_cons, h]

lemma getLang_nil (k : String) : getLang [] k = 0 := rfl

lemma getLang_cons (kv : String × Int) (m : Languages) (k : String) :
    getLang (kv :: m) k = if kv.1 = k then kv.2 else getLang m k := by
  by_cases h : kv.1 = k <;> simp [getLang, lookupLang_cons, h]

lemma nodupKeys_cons (kv : String × Int) (m : Languages) :
    NodupKeys (kv :: m) ↔ kv.1 ∉ keysOf m ∧ NodupKeys m := by
  rw [NodupKeys, keysOf_cons, List.nodup_cons]; exact Iff.rfl

lemma find?_key_isSome_iff (m : Languages) (k : String) :
    (m.find? (fun kv => kv.1 = k)).isSome = true ↔ k ∈ keysOf m := by
  induction m with
  | nil => simp [keysOf_nil]
  | cons kv rest ih =>
    rw [keysOf_cons, List.mem_cons]
    by_cases h : kv.1 = k
    · rw [List.find?_cons_of_pos _ (by simpa using h)]
      exact ⟨fun _ => Or.inl h.symm, fun _ => rfl⟩
    · rw [List.find?_cons_of_neg _ (by simpa using h), ih]
      constructor
      · exact fun hm => Or.inr hm
      · rintro (e | hm)
        · exact absurd e.symm h
        · exact hm

lemma lookupLang_replaceMap_ne (m : Languages) (k k' : String) (v : Int)
    (h : k' ≠ k) :
    lookupLang (m.map (fun kv => if kv.1 = k then (k, v) else kv)) k' =
      lookupLang m k' := by
  induction m with
  | nil => rfl
  | cons kv rest ih =>
    rw [List.map_cons]
    by_cases h1 : kv.1 = k
    · have hne : ¬ (k = k') := fun e => h e.symm
      rw [if_pos h1, lookupLang_cons, lookupLang_cons, if_neg hne,
        if_neg (h1 ▸ hne), ih]
    · rw [if_neg h1, lookupLang_cons, lookupLang_cons, ih]

lemma lookupLang_replaceMap_eq (m : Languages) (k : String) (v : Int)
    (hk : k ∈ keysOf m) :
    lookupLang (m.map (fun kv => if kv.1 = k then (k, v) else kv)) k =
      some v := by
  induction m with
  | nil => rw [keysOf_nil] at hk; cases hk
  | cons kv rest ih =>
    rw [List.map_cons]
    by_cases h1 : kv.1 = k
    · rw [if_pos h1, lookupLang_cons, if_pos rfl]
    · rw [if_neg h1, lookupLang_cons, if_neg h1]
      apply ih
      rw [keysOf_cons] at hk
      rcases List.mem_cons.mp hk with e | hm
      · exact absurd e.symm h1
      · exact hm

lemma lookupLang_append_single (m : Languages) (k k' : String) (v : Int)
    (hk : k ∉ keysOf m) :
    lookupLang (m ++ [(k, v)]) k' = if k' = k then some v else lookupLang m k' := by
  induction m with
  | nil =>
    rw [List.nil_append, lookupLang_cons, lookupLang_nil]
    by_cases h' : k' = k
    · rw [if_pos h'.symm, if_pos h']
    · rw [if_neg (fun e => h' e.symm), if_neg h']
  | cons kv rest ih =>
    have h1 : kv.1 ≠ k := fun e => hk (by rw [keysOf_cons]; exact e ▸ List.mem_cons_self _ _)
    have hk' : k ∉ keysOf rest := fun hm => hk (by rw [keysOf_cons]; exact List.mem_cons_of_mem _ hm)
    rw [List.cons_append, lookupLang_cons, lookupLang_cons, ih hk']
    by_cases h2 : kv.1 = k'
    · have h' : ¬ (k' = k) := fun e => h1 (h2.trans e)
      rw [if_pos h2, if_pos h2, if_neg h']
    · rw [if_neg h2, if_neg h2]

lemma lookupLang_setLang (m : Languages) (k k' : String) (v : Int) :
    lookupLang (setLang m k v) k' = if k' = k then some v else lookupLang m k' := by
  unfold setLang
  by_cases hmem : (m.find? (fun kv => kv.1 = k)).isSome = true
  · rw [if_pos hmem]
    by_cases h' : k' = k
    · subst h'
      rw [if_pos rfl]
      exact lookupLang_replaceMap_eq m k' v ((find?_key_isSome_iff m k').mp hmem)
    · rw [if_neg h']
      exact lookupLang_replaceMap_ne m k k' v h'
  · rw [if_neg hmem]
    exact lookupLang_append_single m k k' v
      (fun h => hmem ((find?_key_isSome_iff m k).mpr h))

lemma getLang_setLang (m : Languages) (k k' : String) (v : Int) :
    getLang (setLang m k v) k' = if k' = k then v else getLang m k' := by
  by_cases h : k' = k <;> simp [getLang, lookupLang_setLang, h]

lemma getLang_addLang (m : Languages) (k k' : String) (v : Int) :
    getLang (addLang m k v) k' = getLang m k' + if k' = k then v else 0 := by
  by_cases h : k' = k
  · subst h
    rw [addLang, getLang_setLang, if_pos rfl, if_pos rfl]
  · simp [addLang, getLang_setLang, h]

lemma entrySum_nil (k : String) : entrySum [] k = 0 := rfl

lemma entrySum_cons (kv : String × Int) (rest : Languages) (k : String) :
    entrySum (kv :: rest) k = (if kv.1 = k then kv.2 else 0) + entrySum rest k := by
  by_cases h : kv.1 = k <;> simp [entrySum, List.filter_cons, h]

lemma getLang_mergeInto (acc b : Languages) (k : String) :
    getLang (mergeInto acc b) k = getLang acc k + entrySum b k := by
  induction b generalizing acc with
  | nil => rw [entrySum_nil, add_zero]; rfl
  | cons kv rest ih =>
    have hstep : mergeInto acc (kv :: rest) = mergeInto (addLang acc kv.1 kv.2) rest := rfl
    rw [hstep, ih, getLang_addLang, entrySum_cons]
    by_cases h : k = kv.1
    · rw [if_pos h, if_pos h.symm]; ring
    · rw [if_neg h, if_neg (fun e => h e.symm)]; ring

lemma getLang_foldl_mergeInto (L : LanguagesList) (acc : Languages) (k : String) :
    getLang (L.foldl mergeInto acc) k =
      getLang acc k + (L.map (fun b => entrySum b k)).sum := by
  induction L generalizing acc with
  | nil => simp
  | cons b rest ih =>
    rw [List.foldl_cons, ih, getLang_mergeInto, List.map_cons, List.sum_cons]
    ring

lemma getLang_sumLanguages (L : LanguagesList) (k : String) :
    getLang (sumLanguages L) k = (L.map (fun b => entrySum b k)).sum := by
  have h := getLang_foldl_mergeInto L [] k
  rwa [getLang_nil, zero_add] at h

lemma entrySum_eq_zero_of_not_mem (b : Languages) (k : String)
    (h : k ∉ keysOf b) : entrySum b k = 0 := by
  induction b with
  | nil => rfl
  | cons kv rest ih =>
    have h1 : kv.1 ≠ k := fun e => h (by rw [keysOf_cons]; exact e ▸ List.mem_cons_self _ _)
    have h2 : k ∉ keysOf rest := fun hm => h (by rw [keysOf_cons]; exact List.mem_cons_of_mem _ hm)
    rw [entrySum_cons, if_neg h1, zero_add]
    exact ih h2

lemma getLang_eq_zero_of_not_mem (b : Languages) (k : String)
    (h : k ∉ keysOf b) : getLang b k = 0 := by
  induction b with
  | nil => rfl
  | cons kv rest ih =>
    have h1 : kv.1 ≠ k := fun e => h (by rw [keysOf_cons]; exact e ▸ List.mem_cons_self _ _)
    have h2 : k ∉ keysOf rest := fun hm => h (by rw [keysOf_cons]; exact List.mem_cons_of_mem _ hm)
    rw [getLang_cons, if_neg h1]
    exact ih h2

lemma entrySum_eq_getLang (b : Languages) (k : String) (hnd : NodupKeys b) :
    entrySum b k = getLang b k := by
  induction b with
  | nil => rfl
  | cons kv rest ih =>
    obtain ⟨hnotmem, hnd'⟩ := (nodupKeys_cons kv rest).mp hnd
    rw [entrySum_cons, getLang_cons]
    by_cases h : kv.1 = k
    · rw [if_pos h, if_pos h, entrySum_eq_zero_of_not_mem rest k (h ▸ hnotmem), add_zero]
    · rw [if_neg h, if_neg h, zero_add]
      exact ih hnd'

lemma keysOf_replaceMap (m : Languages) (k : String) (v : Int) :
    keysOf (m.map (fun kv => if kv.1 = k then (k, v) else kv)) = keysOf m := by
  induction m with
  | nil => rfl
  | cons kv rest ih =>
    rw [List.map_cons, keysOf_cons, keysOf_cons, ih]
    by_cases h : kv.1 = k
    · rw [if_pos h, h]
    · rw [if_neg h]

lemma mem_keysOf_setLang (m : Languages) (k k' : String) (v : Int) :
    k' ∈ keysOf (setLang m k v) ↔ k' ∈ keysOf m ∨ k' = k := by
  unfold setLang
  by_cases hmem : (m.find? (fun kv => kv.1 = k)).isSome = true
  · rw [if_pos hmem, keysOf_replaceMap]
    have hk : k ∈ keysOf m := (find?_key_isSome_iff m k).mp hmem
    constructor
    · exact fun h => Or.inl h
    · rintro (h | rfl)
      · exact h
      · exact hk
  · rw [if_neg hmem, keysOf_append, List.mem_append, keysOf_cons, keysOf_nil,
      List.mem_singleton]

lemma mem_keysOf_addLang (m : Languages) (k k' : String) (v : Int) :
    k' ∈ keysOf (addLang m k v) ↔ k' ∈ keysOf m ∨ k' = k :=
  mem_keysOf_setLang m k k' _

lemma mem_keysOf_mergeInto (acc b : Languages) (k : String) :
    k ∈ keysOf (mergeInto acc b) ↔ k ∈ keysOf acc ∨ k ∈ keysOf b := by
  induction b generalizing acc with
  | nil => rw [keysOf_nil]; simp [mergeInto]
  | cons kv rest ih =>
    have hstep : mergeInto acc (kv :: rest) = mergeInto (addLang acc kv.1 kv.2) rest := rfl
    rw [hstep, ih, mem_keysOf_addLang, keysOf_cons, List.mem_cons]
    tauto

lemma mem_keysOf_foldl_mergeInto (L : LanguagesList) (acc : Languages) (k : String) :
    k ∈ keysOf (L.foldl mergeInto acc) ↔
      k ∈ keysOf acc ∨ ∃ b ∈ L, k ∈ keysOf b := by
  induction L generalizing acc with
  | nil => simp
  | cons b rest ih =>
    rw [List.foldl_cons, ih, mem_keysOf_mergeInto]
    simp only [List.mem_cons]
    constructor
    · rintro ((h | h) | ⟨b', hb', h⟩)
      · exact Or.inl h
      · exact Or.inr ⟨b, Or.inl rfl, h⟩
      · exact Or.inr ⟨b', Or.inr hb', h⟩
    · rintro (h | ⟨b', hb' | hb', h⟩)
      · exact Or.inl (Or.inl h)
      · exact Or.inl (Or.inr (hb' ▸ h))
      · exact Or.inr ⟨b', hb', h⟩

/-- Claim C1: `sumLanguages` maps every language to the elementwise sum of
its byte counts over all breakdowns (breakdowns that do not contain the
language contribute their zero value), and the aggregate is invariant, as
a mapping, under any permutation of the input list. -/
theorem sumLanguages_elementwise_sum_perm_invariant
    (L₁ L₂ : LanguagesList) (k : String)
    (hnd : ∀ b ∈ L₁, NodupKeys b) (hperm : L₁.Perm L₂) :
    getLang (sumLanguages L₁) k = (L₁.map (fun b => getLang b k)).sum ∧
    getLang (sumLanguages L₁) k = getLang (sumLanguages L₂) k := by
  have hmap : ∀ L : LanguagesList, (∀ b ∈ L, NodupKeys b) →
      (L.map (fun b => entrySum b k)) = (L.map (fun b => getLang b k)) :=
    fun L hL => List.map_congr_left (fun b hb => entrySum_eq_getLang b k (hL b hb))
  have h1 : getLang (sumLanguages L₁) k = (L₁.map (fun b => getLang b k)).sum := by
    rw [getLang_sumLanguages, hmap L₁ hnd]
  refine ⟨h1, ?_⟩
  have hnd₂ : ∀ b ∈ L₂, NodupKeys b := fun b hb => hnd b (hperm.symm.subset hb)
  have h2 : getLang (sumLanguages L₂) k = (L₂.map (fun b => getLang b k)).sum := by
    rw [getLang_sumLanguages, hmap L₂ hnd₂]
  rw [h1, h2]
  exact List.Perm.sum_eq (hperm.map (fun b => getLang b k))

/-- Witness for claim C1 at a concrete two-repository input and its
reversal. -/
theorem sumLanguages_elementwise_sum_perm_invariant_witness :
    getLang (sumLanguages [[("Go", 100), ("HTML", 20)], [("Go", 50), ("CSS", 30)]]) "Go" =
      (([[("Go", 100), ("HTML", 20)], [("Go", 50), ("CSS", 30)]] : LanguagesList).map
        (fun b => getLang b "Go")).sum ∧
    getLang (sumLanguages [[("Go", 100), ("HTML", 20)], [("Go", 50), ("CSS", 30)]]) "Go" =
      getLang (sumLanguages [[("Go", 50), ("CSS", 30)], [("Go", 100), ("HTML", 20)]]) "Go" :=
  sumLanguages_elementwise_sum_perm_invariant
    [[("Go", 100), ("HTML", 20)], [("Go", 50), ("CSS", 30)]]
    [[("Go", 50), ("CSS", 30)], [("Go", 100), ("HTML", 20)]]
    "Go" (by decide) (by decide)

/-- Claim C6, counterexample: a breakdown that explicitly reports a zero
byte count for a language puts that language into the aggregate's key set
(with an explicit zero entry) even though no breakdown reported a positive
count for it, refuting the claimed iff. -/
theorem sumLanguages_zero_key_counterexample :
    "Go" ∈ keysOf (sumLanguages [[("Go", 0)]]) ∧
    ("Go", (0 : Int)) ∈ sumLanguages [[("Go", 0)]] ∧
    ¬ (∃ b ∈ ([[("Go", (0 : Int))]] : LanguagesList), 0 < getLang b "Go") := by
  decide

/-- Claim C6, amended: the aggregate contains a language as a key if and
only if at least one breakdown contains that language as a key, regardless
of the reported byte count (an explicit zero in a breakdown is stored as
an explicit zero entry in the aggregate). -/
theorem mem_keysOf_sumLanguages (L : LanguagesList) (k : String) :
    k ∈ keysOf (sumLanguages L) ↔ ∃ b ∈ L, k ∈ keysOf b := by
  have h := mem_keysOf_foldl_mergeInto L [] k
  rw [sumLanguages, h, keysOf_nil]
  simp

/-! ## Recency filter: `computeFilter` (src/main.go lines 89-98)

`totalDays := int(filterVal * 365)` uses Go's float-to-int conversion,
which truncates toward zero; the float value is embedded as a rational.
Go's `/` and `%` on integers are T-division, i.e. `Int.tdiv`/`Int.tmod`.
The final `time.Now().AddDate(years, months, days)` belongs to the
external time library, so the embedding exposes the `(years, months,
days)` triple handed to it. -/

/-- Go's `int(x)` conversion on a numeric value: truncation toward zero. -/
def goIntOfRat (q : ℚ) : Int := q.num.tdiv q.den

/-- The assignment `totalDays := int(filterVal * 365)` in `computeFilter`. -/
def computeFilterTotalDays (filterVal : ℚ) : Int := goIntOfRat (filterVal * 365)

/-- The `(years, months, days)` triple that `computeFilter` passes to
`time.Now().AddDate`. -/
def computeFilterParts (filterVal : ℚ) : Int × Int × Int :=
  let totalDays : Int := computeFilterTotalDays filterVal
  let years : Int := (-totalDays).tdiv 365
  let remainingDays : Int := totalDays.tmod 365
  let months : Int := (-remainingDays).tdiv 30
  let days : Int := (-remainingDays).tmod 30
  (years, months, days)

lemma tmod_neg_eq (a b : ℤ) : (-a).tmod b = -(a.tmod b) := by
  have h1 := Int.tdiv_add_tmod a b
  have h2 := Int.tdiv_add_tmod (-a) b
  rw [Int.neg_tdiv] at h2
  linarith

/-- Claim C3, counterexample: the day count is Go's truncation toward
zero, not rounding; at `y = 1/2` the code computes 182 days while
`round(0.5 * 365) = round(182.5) = 183`. -/
theorem computeFilter_not_round_counterexample :
    computeFilterTotalDays (1/2) = 182 ∧
    round ((1/2 : ℚ) * 365) = 183 ∧
    computeFilterTotalDays (1/2) ≠ round ((1/2 : ℚ) * 365) := by
  refine ⟨?_, ?_, ?_⟩
  · norm_num [computeFilterTotalDays, goIntOfRat]; decide
  · norm_num [round_eq]
  · norm_num [computeFilterTotalDays, goIntOfRat, round_eq]; decide

/-- Claim C3, amended: for every nonnegative fractional-year duration,
`computeFilter` converts it to `trunc(y * 365)` days (truncation toward
zero, not rounding), decomposes that day count by repeated T-division
with divisors 365 and 30, and hands the negated triple to `AddDate`; the
triple reconstructs the day count exactly, with the day component in
`[0, 30)`. -/
theorem computeFilter_trunc_decomposition (y : ℚ) (hy : 0 ≤ y) :
    computeFilterTotalDays y = goIntOfRat (y * 365) ∧
    computeFilterParts y =
      (-((computeFilterTotalDays y).tdiv 365),
       -(((computeFilterTotalDays y).tmod 365).tdiv 30),
       -(((computeFilterTotalDays y).tmod 365).tmod 30)) ∧
    365 * (-(computeFilterParts y).1) + 30 * (-(computeFilterParts y).2.1) +
      (-(computeFilterParts y).2.2) = computeFilterTotalDays y ∧
    0 ≤ -(computeFilterParts y).2.2 ∧ -(computeFilterParts y).2.2 < 30 := by
  have hd : 0 ≤ computeFilterTotalDays y := by
    have hnum : 0 ≤ (y * 365).num := Rat.num_nonneg.mpr (by positivity)
    exact Int.tdiv_nonneg hnum (Int.ofNat_nonneg _)
  set d := computeFilterTotalDays y with hdef
  have hparts : computeFilterParts y =
      (-(d.tdiv 365), -((d.tmod 365).tdiv 30), -((d.tmod 365).tmod 30)) := by
    show ((-d).tdiv 365, (-(d.tmod 365)).tdiv 30, (-(d.tmod 365)).tmod 30) = _
    rw [Int.neg_tdiv, Int.neg_tdiv, tmod_neg_eq]
  have hr : 0 ≤ d.tmod 365 := Int.tmod_nonneg _ hd
  have hrec : 365 * (d.tdiv 365) + (30 * ((d.tmod 365).tdiv 30) +
      (d.tmod 365).tmod 30) = d := by
    have h1 := Int.tdiv_add_tmod d 365
    have h2 := Int.tdiv_add_tmod (d.tmod 365) 30
    linarith
  refine ⟨rfl, hparts, ?_, ?_, ?_⟩
  · rw [hparts]; simp only [neg_neg]; linarith
  · rw [hparts]; simp only [neg_neg]
    exact Int.tmod_nonneg _ hr
  · rw [hparts]; simp only [neg_neg]
    rw [Int.tmod_eq_emod hr (by norm_num)]
    exact Int.emod_lt_of_pos _ (by norm_num)

/-- Witness for claim C3 at `y = 1/2`: 182 days, decomposed as 0 years,
6 months and 2 days to subtract. -/
theorem computeFilter_trunc_decomposition_witness :
    365 * (-(computeFilterParts (1/2)).1) + 30 * (-(computeFilterParts (1/2)).2.1) +
      (-(computeFilterParts (1/2)).2.2) = computeFilterTotalDays (1/2) ∧
    computeFilterTotalDays (1/2) = 182 ∧
    computeFilterParts (1/2) = (0, -6, -2) :=
  ⟨(computeFilter_trunc_decomposition (1/2) (by norm_num)).2.2.1,
   by norm_num [computeFilterTotalDays, goIntOfRat]; decide,
   by norm_num [computeFilterParts, computeFilterTotalDays, goIntOfRat]; decide⟩

/-! ## Repositories, the recency filter and account-type resolution

A `github.Repository` is embedded by the two fields the pipeline reads:
`GetFullName()` and `GetUpdatedAt()` (the last-updated instant, as an
abstract integer timestamp; `After` is strict `<` on instants). -/

structure Repository where
  fullName : String
  updatedAt : Int
deriving DecidableEq, Repr

/-- Go's `func filterRepositories(repos []github.Repository, filter time.Time)`:
append each repository whose `UpdatedAt` is strictly after the cutoff. -/
def filterRepositories (repos : List Repository) (cutoff : Int) : List Repository :=
  repos.foldl
    (fun results repo => if cutoff < repo.updatedAt then results ++ [repo] else results)
    []

/-- The filter step of `main` (src/main.go lines 56-60): the cutoff is
computed and the filter applied only when `filterVal != 0.0`; the cutoff
instant itself comes from the external time library, so it is a
parameter. -/
def mainFilterStep (filterVal : ℚ) (cutoff : Int) (repos : List Repository) :
    List Repository :=
  if filterVal ≠ 0 then filterRepositories repos cutoff else repos

lemma filterRepositories_foldl_eq (repos : List Repository) (cutoff : Int)
    (acc : List Repository) :
    repos.foldl
      (fun results repo => if cutoff < repo.updatedAt then results ++ [repo] else results)
      acc = acc ++ repos.filter (fun r => cutoff < r.updatedAt) := by
  induction repos generalizing acc with
  | nil => simp
  | cons r rest ih =>
    rw [List.foldl_cons, List.filter_cons]
    by_cases h : cutoff < r.updatedAt
    · rw [if_pos h, ih]
      simp [h]
    · rw [if_neg h, ih]
      simp [h]

lemma filterRepositories_eq_filter (repos : List Repository) (cutoff : Int) :
    filterRepositories repos cutoff = repos.filter (fun r => cutoff < r.updatedAt) := by
  have h := filterRepositories_foldl_eq repos cutoff []
  rwa [List.nil_append] at h

/-- Claim C5: with a nonzero duration the filter step retains exactly the
repositories whose last-updated instant is strictly after the cutoff
(preserving order), and with duration exactly zero it passes the
repository list through unchanged. -/
theorem mainFilterStep_semantics (v : ℚ) (cutoff : Int) (repos : List Repository) :
    (v ≠ 0 →
      mainFilterStep v cutoff repos = repos.filter (fun r => cutoff < r.updatedAt) ∧
      ∀ r, r ∈ mainFilterStep v cutoff repos ↔ r ∈ repos ∧ cutoff < r.updatedAt) ∧
    (v = 0 → mainFilterStep v cutoff repos = repos) := by
  constructor
  · intro hv
    have he : mainFilterStep v cutoff repos = repos.filter (fun r => cutoff < r.updatedAt) := by
      rw [mainFilterStep, if_pos hv, filterRepositories_eq_filter]
    refine ⟨he, fun r => ?_⟩
    rw [he, List.mem_filter]
    simp
  · intro hv
    rw [mainFilterStep, if_neg (by simpa using hv)]

/-- Witness for claim C5 on a concrete two-repository list, at a nonzero
and at a zero duration. -/
theorem mainFilterStep_semantics_witness :
    mainFilterStep 1 5 [⟨"a/x", 10⟩, ⟨"a/y", 3⟩] = [⟨"a/x", 10⟩] ∧
    mainFilterStep 0 5 [⟨"a/x", 10⟩, ⟨"a/y", 3⟩] = [⟨"a/x", 10⟩, ⟨"a/y", 3⟩] := by
  constructor
  · rw [(mainFilterStep_semantics 1 5 [⟨"a/x", 10⟩, ⟨"a/y", 3⟩]).1 (by norm_num) |>.1]
    decide
  · exact (mainFilterStep_semantics 0 5 [⟨"a/x", 10⟩, ⟨"a/y", 3⟩]).2 rfl

/-! ## Account-type resolution: `findAccountType` (src/main.go 111-132)

The HTTP profile request plus JSON decode is a parameter
`profile : String → Except String String` returning the profile's
declared `Type` field; the classification of that declared type is the
code after the decode. -/

/-- The classification at the end of `findAccountType`: `"User"` maps to
the `users` endpoint prefix, `"Organization"` to `orgs`, and any other
declared type is an `Unknown account type` error. -/
def classifyAccountType (t : String) : Except String String :=
  if t = "User" then Except.ok "users"
  else if t = "Organization" then Except.ok "orgs"
  else Except.error ("Unknown account type: " ++ t)

/-- Go's `func findAccountType(client *api.RESTClient, account string)`:
request the profile, propagate a request/decode error, then classify the
declared type. -/
def findAccountType (profile : String → Except String String) (account : String) :
    Except String String :=
  match profile account with
  | Except.error e => Except.error e
  | Except.ok t => classifyAccountType t

instance {ε α : Type} [DecidableEq ε] [DecidableEq α] : DecidableEq (Except ε α) :=
  fun x y =>
    match x, y with
    | Except.ok a, Except.ok b =>
      if h : a = b then isTrue (by rw [h]) else isFalse (fun e => h (Except.ok.inj e))
    | Except.ok _, Except.error _ => isFalse (fun h => Except.noConfusion h)
    | Except.error _, Except.ok _ => isFalse (fun h => Except.noConfusion h)
    | Except.error e, Except.error f =>
      if h : e = f then isTrue (by rw [h]) else isFalse (fun he => h (Except.error.inj he))

/-- Claim C7, counterexample: a profile whose declared type is `"Bot"`
(neither organization-like nor the literal user type) is not classified
as a user; `findAccountType` returns an `Unknown account type` error. -/
theorem findAccountType_unknown_counterexample :
    findAccountType (fun _ => Except.ok "Bot") "copilot" =
      Except.error ("Unknown account type: " ++ "Bot") ∧
    findAccountType (fun _ => Except.ok "Bot") "copilot" ≠ Except.ok "users" := by
  decide

/-- Claim C7, amended: `findAccountType` classifies a declared type of
exactly `"User"` as `users` and exactly `"Organization"` as `orgs`; every
other declared type yields an `Unknown account type` error rather than
the user classification. -/
theorem findAccountType_classification (profile : String → Except String String)
    (account t : String) (hp : profile account = Except.ok t) :
    (t = "User" → findAccountType profile account = Except.ok "users") ∧
    (t = "Organization" → findAccountType profile account = Except.ok "orgs") ∧
    (t ≠ "User" → t ≠ "Organization" →
      findAccountType profile account = Except.error ("Unknown account type: " ++ t)) := by
  refine ⟨?_, ?_, ?_⟩
  · intro h
    subst h
    simp [findAccountType, hp, classifyAccountType]
  · intro h
    subst h
    simp [findAccountType, hp, classifyAccountType]
  · intro h1 h2
    simp [findAccountType, hp, classifyAccountType, h1, h2]

/-- Witness for claim C7 on the three concrete declared types `"User"`,
`"Organization"` and `"Bot"`. -/
theorem findAccountType_classification_witness :
    findAccountType (fun _ => Except.ok "User") "octocat" = Except.ok "users" ∧
    findAccountType (fun _ => Except.ok "Organization") "github" = Except.ok "orgs" ∧
    findAccountType (fun _ => Except.ok "Bot") "app" =
      Except.error ("Unknown account type: " ++ "Bot") :=
  ⟨(findAccountType_classification (fun _ => Except.ok "User") "octocat" "User" rfl).1 rfl,
   (findAccountType_classification (fun _ => Except.ok "Organization") "github"
      "Organization" rfl).2.1 rfl,
   (findAccountType_classification (fun _ => Except.ok "Bot") "app" "Bot" rfl).2.2
      (by decide) (by decide)⟩

/-! ## Repository enumeration: `getRepositories` (src/main.go 134-169)

The transport (`client.Request` on
`"%s/%s/repos?per_page=100&page=%d"` plus JSON decode) is a parameter
`server` keyed by endpoint prefix, account, `per_page` value and page
number.  The `for { ... }` loop is embedded with explicit fuel: `none`
models a run that never reaches an empty page within the fuel bound.
Alongside the repository list, the embedding records which
`(per_page, page)` requests were issued, in order. -/

/-- The paging loop of `getRepositories`: request page `page`, stop on a
transport error (discarding partial results) or on an empty page,
otherwise append the page's items in server-return order and continue
with `page + 1`. -/
def getRepositoriesLoop (server : Nat → Nat → Except String (List Repository)) :
    Nat → Nat → List Repository → List (Nat × Nat) →
    Option (Except String (List Repository × List (Nat × Nat)))
  | 0, _, _, _ => none
  | Nat.succ fuel, page, repos, reqs =>
    match server 100 page with
    | Except.error e => some (Except.error e)
    | Except.ok data =>
      if data = [] then some (Except.ok (repos, reqs ++ [(100, page)]))
      else getRepositoriesLoop server fuel (page + 1) (repos ++ data) (reqs ++ [(100, page)])

/-- Go's `func getRepositories(client *api.RESTClient, account string)`:
resolve the account type, then page through `t/account/repos` starting at
page 1. -/
def getRepositories (profile : String → Except String String)
    (server : String → String → Nat → Nat → Except String (List Repository))
    (account : String) (fuel : Nat) :
    Option (Except String (List Repository × List (Nat × Nat))) :=
  match findAccountType profile account with
  | Except.error e => some (Except.error e)
  | Except.ok t => getRepositoriesLoop (server t account) fuel 1 [] []

/-- The item list a successful response for page `i` carries. -/
def pageData (server : Nat → Nat → Except String (List Repository)) (i : Nat) :
    List Repository :=
  match server 100 i with
  | Except.ok l => l
  | Except.error _ => []

lemma getRepositoriesLoop_spec (server : Nat → Nat → Except String (List Repository))
    (k : Nat)
    (hne : ∀ i, 1 ≤ i → i < k → ∃ l, server 100 i = Except.ok l ∧ l ≠ [])
    (hstop : server 100 k = Except.ok []) :
    ∀ fuel page repos reqs, 1 ≤ page → page ≤ k → k + 1 ≤ fuel + page →
    getRepositoriesLoop server fuel page repos reqs =
      some (Except.ok
        (repos ++ ((List.range (k - page)).map (fun j => pageData server (page + j))).flatten,
         reqs ++ (List.range (k + 1 - page)).map (fun j => (100, page + j)))) := by
  intro fuel
  induction fuel with
  | zero => intro page repos reqs h1 h2 h3; omega
  | succ fuel ih =>
    intro page repos reqs h1 h2 h3
    by_cases hpk : page = k
    · subst hpk
      rw [getRepositoriesLoop, hstop]
      simp [show List.range 1 = [0] from rfl]
    · have hlt : page < k := lt_of_le_of_ne h2 hpk
      obtain ⟨l, hok, hl⟩ := hne page h1 hlt
      rw [getRepositoriesLoop, hok]
      dsimp only
      rw [if_neg hl]
      rw [ih (page + 1) (repos ++ l) (reqs ++ [(100, page)]) (by omega) (by omega) (by omega)]
      have hkp : k - page = (k - (page + 1)) + 1 := by omega
      have hkp2 : k + 1 - page = (k + 1 - (page + 1)) + 1 := by omega
      have hpage : pageData server page = l := by rw [pageData, hok]
      have hflat2 : List.map (fun j => pageData server (page + j))
          (List.map Nat.succ (List.range (k - (page + 1)))) =
          List.map (fun j => pageData server (page + 1 + j)) (List.range (k - (page + 1))) := by
        rw [List.map_map]
        apply List.map_congr_left
        intro j _
        show pageData server (page + Nat.succ j) = pageData server (page + 1 + j)
        exact congrArg (pageData server) (by omega)
      have hreqs2 : List.map (fun j => ((100 : Nat), page + j))
          (List.map Nat.succ (List.range (k + 1 - (page + 1)))) =
          List.map (fun j => ((100 : Nat), page + 1 + j)) (List.range (k + 1 - (page + 1))) := by
        rw [List.map_map]
        apply List.map_congr_left
        intro j _
        show ((100 : Nat), page + Nat.succ j) = (100, page + 1 + j)
        exact congrArg (fun n => ((100 : Nat), n)) (by omega)
      rw [hkp, hkp2]
      simp only [List.range_succ_eq_map, List.map_cons, List.flatten_cons, Nat.add_zero]
      rw [hpage, hflat2, hreqs2]
      simp [List.append_assoc]

/-- Claim C2: `getRepositories` issues `per_page=100` requests
sequentially for pages 1, 2, ..., k, stopping at the first page `k` that
returns zero items, and returns the pages' items concatenated in
server-return order. -/
theorem getRepositories_pagination (profile : String → Except String String)
    (server : String → String → Nat → Nat → Except String (List Repository))
    (account t : String) (k fuel : Nat)
    (hacct : findAccountType profile account = Except.ok t)
    (hk : 1 ≤ k)
    (hne : ∀ i, 1 ≤ i → i < k → ∃ l, server t account 100 i = Except.ok l ∧ l ≠ [])
    (hstop : server t account 100 k = Except.ok [])
    (hfuel : k ≤ fuel) :
    getRepositories profile server account fuel =
      some (Except.ok
        (((List.range (k - 1)).map (fun j => pageData (server t account) (1 + j))).flatten,
         (List.range k).map (fun j => (100, 1 + j)))) := by
  rw [getRepositories, hacct]
  dsimp only
  rw [getRepositoriesLoop_spec (server t account) k hne hstop fuel 1 [] [] le_rfl hk
      (by omega)]
  simp only [List.nil_append, Nat.add_sub_cancel]

/-- A demo repository for concrete pagination runs. -/
def demoRepo (n : Nat) : Repository := ⟨"octocat/r", (n : Int)⟩

/-- A demo server returning pages of sizes 100, 100, 37, 0, 0, ... -/
def demoServer : String → String → Nat → Nat → Except String (List Repository) :=
  fun _ _ _ page =>
    if page = 1 then Except.ok ((List.range 100).map demoRepo)
    else if page = 2 then Except.ok ((List.range 100).map (fun n => demoRepo (100 + n)))
    else if page = 3 then Except.ok ((List.range 37).map (fun n => demoRepo (200 + n)))
    else Except.ok []

set_option maxRecDepth 100000 in
/-- Witness for claim C2: on a server returning pages of sizes
[100, 100, 37, 0], `getRepositories` returns exactly 237 repositories
after exactly the 4 sequential `per_page=100` requests for pages
1, 2, 3, 4. -/
theorem getRepositories_pagination_witness :
    getRepositories (fun _ => Except.ok "User") demoServer "octocat" 10 =
      some (Except.ok
        (((List.range 3).map (fun j => pageData (demoServer "users" "octocat") (1 + j))).flatten,
         (List.range 4).map (fun j => (100, 1 + j)))) ∧
    (((List.range 3).map (fun j => pageData (demoServer "users" "octocat") (1 + j))).flatten).length = 237 ∧
    ((List.range 4).map (fun j => ((100 : Nat), 1 + j))) =
      [(100, 1), (100, 2), (100, 3), (100, 4)] := by
  refine ⟨?_, by decide, by decide⟩
  exact getRepositories_pagination (fun _ => Except.ok "User") demoServer "octocat"
    "users" 4 10 rfl (by decide)
    (by
      intro i h1 h2
      interval_cases i <;> exact ⟨_, rfl, by decide⟩)
    rfl (by decide)

/-! ## Account resolution in `main` (src/main.go 41-44)

`account := pflag.Arg(0); if account == "" { account, _ =
getGitHubUsername() }`: the identity lookup error is discarded with `_`,
and on failure `getGitHubUsername` returns `("", err)`, so `account`
stays the empty string and `main` proceeds to enumeration. -/

/-- The account-resolution step of `main`: the identity lookup is
consulted only when no argument was given, and its error is discarded. -/
def resolveAccount (arg : String) (identity : Except String String) : String :=
  if arg = "" then
    match identity with
    | Except.ok u => u
    | Except.error _ => ""
  else arg

/-- The prefix of `main` relevant to account resolution and enumeration:
resolve the account, then enumerate its repositories. -/
def mainRun (arg : String) (identity : Except String String)
    (profile : String → Except String String)
    (server : String → String → Nat → Nat → Except String (List Repository))
    (fuel : Nat) : Option (Except String (List Repository × List (Nat × Nat))) :=
  getRepositories profile server (resolveAccount arg identity) fuel

/-- Claim C8, counterexample: with no account argument and a failing
identity lookup, `main` does not fail; it proceeds to enumeration with
the empty account name, here even completing a successful (empty)
enumeration after issuing the page-1 request. -/
theorem mainRun_identity_failure_counterexample :
    resolveAccount "" (Except.error "gh: not logged in") = "" ∧
    mainRun "" (Except.error "gh: not logged in") (fun _ => Except.ok "User")
      (fun _ _ _ _ => Except.ok []) 1 = some (Except.ok ([], [(100, 1)])) :=
  ⟨rfl, rfl⟩

/-- Claim C8, amended: when no account name is supplied and the identity
lookup fails, the error is discarded, the account resolves to the empty
string, and the pipeline proceeds to enumeration with that empty account
(there is no `NoCurrentUser` failure path). -/
theorem mainRun_identity_failure_proceeds (e : String)
    (profile : String → Except String String)
    (server : String → String → Nat → Nat → Except String (List Repository))
    (fuel : Nat) :
    resolveAccount "" (Except.error e) = "" ∧
    mainRun "" (Except.error e) profile server fuel =
      getRepositories profile server "" fuel :=
  ⟨rfl, rfl⟩

/-! ## Report building: `printTable` (src/main.go 240-283)

`printTable` copies the aggregate map into a `[]Pair` (Go map iteration
order is unspecified) and sorts it with
`sort.Slice(pairs, func(i, j int) bool { return pairs[i].Value >
pairs[j].Value })`.  `sort.Slice` is an unstable sort from the external
standard library, so the embedding is relational: a row sequence is a
possible output exactly when it is a permutation of the aggregate's
entries that is nonincreasing in `Value`.  Ties carry no guarantee. -/

/-- Go's `type Pair struct` with a `Key` string and a `Value` int. -/
structure Pair where
  key : String
  value : Int
deriving DecidableEq, Repr

/-- The `[]Pair` copy of the aggregate map (in some iteration order). -/
def pairsOf (languages : Languages) : List Pair :=
  languages.map (fun kv => ⟨kv.1, kv.2⟩)

/-- The row sequences `printTable` can produce for a given aggregate:
permutations of the aggregate's entries sorted by the `sort.Slice`
comparator `Value >`. -/
def printTableRows (languages : Languages) (rows : List Pair) : Prop :=
  rows.Perm (pairsOf languages) ∧ rows.Pairwise (fun a b => b.value ≤ a.value)

instance (languages : Languages) (rows : List Pair) :
    Decidable (printTableRows languages rows) := by
  unfold printTableRows; infer_instance

/-- The ordering claimed by the spec: byte count strictly descending with
ties broken by language name ascending. -/
def rowsSortedWithTieBreak (rows : List Pair) : Prop :=
  rows.Pairwise (fun a b => b.value < a.value ∨ (a.value = b.value ∧ a.key < b.key))

/-- The `sumLines` accumulation in `printTable`'s row loop (the value of
the `Total` footer row). -/
def sumLines (rows : List Pair) : Int :=
  rows.foldl (fun acc p => acc + p.value) 0

lemma sumLines_eq_sum_map (rows : List Pair) :
    sumLines rows = (rows.map (fun p => p.value)).sum := by
  have haux : ∀ (l : List Pair) (acc : Int),
      l.foldl (fun acc p => acc + p.value) acc = acc + (l.map (fun p => p.value)).sum := by
    intro l
    induction l with
    | nil => intro acc; simp
    | cons p rest ih =>
      intro acc
      rw [List.foldl_cons, ih, List.map_cons, List.sum_cons]
      ring
  have h := haux rows 0
  rwa [zero_add] at h

/-- Claim C4, counterexample: for the aggregate `{B: 1, A: 1}`,
`sort.Slice`'s contract admits the output `[B, A]` — sorted by byte count
but with the equal-count rows not in name-ascending order — so the
claimed deterministic name tie-break does not hold for every aggregate. -/
theorem printTable_tiebreak_counterexample :
    printTableRows [("B", 1), ("A", 1)] [⟨"B", 1⟩, ⟨"A", 1⟩] ∧
    ¬ rowsSortedWithTieBreak [⟨"B", 1⟩, ⟨"A", 1⟩] := by
  constructor
  · exact ⟨by decide, by decide⟩
  · intro h
    have hrel := (List.pairwise_cons.mp h).1 ⟨"A", 1⟩ (List.mem_singleton.mpr rfl)
    rcases hrel with hlt | ⟨heq, hname⟩
    · exact absurd hlt (by decide)
    · exact absurd (String.lt_iff_toList_lt.mp hname) (by decide)

/-- Claim C4, amended: every row sequence `printTable` can produce is a
permutation of the aggregate's entries that is sorted by byte count
descending (nonincreasing); the relative order of rows with equal byte
counts is unspecified.  The row multiset, the row count and the `Total`
footer are therefore determined: `sumLines` equals the sum of the
aggregate's byte counts. -/
theorem printTableRows_sorted_desc (languages : Languages) (rows : List Pair)
    (h : printTableRows languages rows) :
    rows.Pairwise (fun a b => b.value ≤ a.value) ∧
    rows.length = languages.length ∧
    sumLines rows = (languages.map (fun kv => kv.2)).sum := by
  refine ⟨h.2, ?_, ?_⟩
  · rw [h.1.length_eq, pairsOf, List.length_map]
  · rw [sumLines_eq_sum_map, List.Perm.sum_eq (h.1.map (fun p => p.value)),
      pairsOf, List.map_map]
    rfl

/-- Witness for claim C4 on the aggregate `{Go: 150, CSS: 30, HTML: 20}`
with its descending row order and `Total` 200. -/
theorem printTableRows_sorted_desc_witness :
    sumLines [⟨"Go", 150⟩, ⟨"CSS", 30⟩, ⟨"HTML", 20⟩] =
      (([("Go", 150), ("CSS", 30), ("HTML", 20)] : Languages).map (fun kv => kv.2)).sum ∧
    sumLines [⟨"Go", 150⟩, ⟨"CSS", 30⟩, ⟨"HTML", 20⟩] = 200 :=
  ⟨(printTableRows_sorted_desc [("Go", 150), ("CSS", 30), ("HTML", 20)]
      [⟨"Go", 150⟩, ⟨"CSS", 30⟩, ⟨"HTML", 20⟩] (by decide)).2.2,
   by decide⟩

/-! ## The concurrent fan-out of `getLanguages` (src/main.go 186-221)

Each goroutine ends with `results = append(results, data)` on the shared
slice, with no mutex and no channel.  An unsynchronized append is a
read-modify-write: the goroutine reads the current slice value and then
writes the extended slice.  The interleaving semantics below makes those
two steps separate atomic events per goroutine; a schedule is a list of
events.  Go's memory model gives no guarantee beyond the interleavings
admitted here (it is in fact weaker: this is a data race). -/

/-- One atomic event of a goroutine `tid`: reading the shared `results`
slice, or writing back its extension by the goroutine's decoded data. -/
inductive RaceEv where
  | read (tid : Nat)
  | write (tid : Nat)
deriving DecidableEq, Repr

/-- Shared state plus each goroutine's private snapshot of `results`. -/
structure RaceState where
  results : LanguagesList
  snap : List (Option LanguagesList)

/-- Execute one event: `read tid` snapshots the shared slice; `write tid`
stores the snapshot extended by `datas[tid]` (the unsynchronized
`results = append(results, data)`). -/
def raceStep (datas : LanguagesList) (s : RaceState) : RaceEv → RaceState
  | RaceEv.read tid => { s with snap := s.snap.set tid (some s.results) }
  | RaceEv.write tid =>
    match s.snap.getD tid none with
    | some r => { s with results := r ++ [datas.getD tid []] }
    | none => s

/-- Run a schedule of events from the initial state (empty shared slice,
no snapshots). -/
def runRace (datas : LanguagesList) (sched : List RaceEv) : RaceState :=
  sched.foldl (raceStep datas) ⟨[], List.replicate datas.length none⟩

/-- A complete fan-out schedule for `n` goroutines: every goroutine's
read and write occur exactly once, and each goroutine reads before it
writes (program order inside the goroutine). -/
def completeSchedule (n : Nat) (sched : List RaceEv) : Prop :=
  sched.Perm (((List.range n).map RaceEv.read) ++ ((List.range n).map RaceEv.write)) ∧
  ∀ tid ∈ List.range n,
    sched.indexOf (RaceEv.read tid) < sched.indexOf (RaceEv.write tid)

instance (n : Nat) (sched : List RaceEv) : Decidable (completeSchedule n sched) := by
  unfold completeSchedule; infer_instance

/-- Claim C9: the writers to the shared `results` slice are not mutually
excluded, and a merge can be lost.  Under the complete two-goroutine
schedule read 0, read 1, write 0, write 1 — admitted because the code
takes no lock and uses no channel — goroutine 0's breakdown vanishes from
the shared slice: only one of the two performed merges survives, while
the serialized schedule keeps both. -/
theorem getLanguages_race_lost_update :
    completeSchedule 2 [RaceEv.read 0, RaceEv.read 1, RaceEv.write 0, RaceEv.write 1] ∧
    (runRace [[("Go", 1)], [("Rust", 2)]]
      [RaceEv.read 0, RaceEv.read 1, RaceEv.write 0, RaceEv.write 1]).results =
      [[("Rust", 2)]] ∧
    (runRace [[("Go", 1)], [("Rust", 2)]]
      [RaceEv.read 0, RaceEv.write 0, RaceEv.read 1, RaceEv.write 1]).results =
      [[("Go", 1)], [("Rust", 2)]] := by
  refine ⟨by decide, rfl, rfl⟩

/-! ## Error structure of `getLanguages` (src/main.go 186-221)

Any per-repository request or decode failure calls `log.Fatal`, which
terminates the whole process; the function's only `return` statement is
`return results, nil`.  The fan-out is serialized in repository order
here; claim C10 concerns only which outcomes are possible, not the
interleaving (covered above). -/

/-- Outcome of running Go code that may call `log.Fatal`: a normal return
value, or process termination with a message. -/
inductive GoOutcome (α : Type) where
  | ok (val : α)
  | fatal (msg : String)

/-- The per-repository loop of `getLanguages`: fetch
`repos/<fullName>/languages`, die on any error, otherwise collect the
decoded breakdown. -/
def getLanguagesAux (fetch : String → Except String Languages) :
    List Repository → LanguagesList → GoOutcome (LanguagesList × Option String)
  | [], results => GoOutcome.ok (results, none)
  | r :: rest, results =>
    match fetch r.fullName with
    | Except.error e => GoOutcome.fatal e
    | Except.ok data => getLanguagesAux fetch rest (results ++ [data])

/-- Go's `func getLanguages(client *api.RESTClient, data []github.Repository)`:
the `Option String` component is the Go `error` result (`none` = `nil`). -/
def getLanguages (fetch : String → Except String Languages)
    (data : List Repository) : GoOutcome (LanguagesList × Option String) :=
  getLanguagesAux fetch data []

lemma getLanguagesAux_ok_error_nil (fetch : String → Except String Languages) :
    ∀ (repos : List Repository) (acc : LanguagesList)
      (res : LanguagesList × Option String),
      getLanguagesAux fetch repos acc = GoOutcome.ok res → res.2 = none := by
  intro repos
  induction repos with
  | nil =>
    intro acc res h
    rw [getLanguagesAux] at h
    cases h
    rfl
  | cons r rest ih =>
    intro acc res h
    rw [getLanguagesAux] at h
    cases hf : fetch r.fullName with
    | error e => rw [hf] at h; cases h
    | ok data =>
      rw [hf] at h
      exact ih (acc ++ [data]) res h

lemma getLanguagesAux_fatal_of_failure (fetch : String → Except String Languages) :
    ∀ (repos : List Repository) (acc : LanguagesList),
      (∃ r ∈ repos, ∃ e, fetch r.fullName = Except.error e) →
      ∃ msg, getLanguagesAux fetch repos acc = GoOutcome.fatal msg := by
  intro repos
  induction repos with
  | nil =>
    intro acc h
    obtain ⟨r, hr, _⟩ := h
    cases hr
  | cons r rest ih =>
    intro acc h
    cases hf : fetch r.fullName with
    | error e =>
      refine ⟨e, ?_⟩
      rw [getLanguagesAux, hf]
    | ok data =>
      obtain ⟨r', hr', e, he⟩ := h
      rcases List.mem_cons.mp hr' with rfl | hmem
      · rw [hf] at he; cases he
      · obtain ⟨msg, hmsg⟩ := ih (acc ++ [data]) ⟨r', hmem, e, he⟩
        refine ⟨msg, ?_⟩
        rw [getLanguagesAux, hf]
        exact hmsg

/-- Claim C10: `getLanguages`'s Go `error` result is `nil` on every
normal return (its only return statement is `return results, nil`), and
any per-repository retrieval or decode failure terminates the whole
process via `log.Fatal` instead of surfacing as an error value. -/
theorem getLanguages_error_nil_or_fatal (fetch : String → Except String Languages)
    (repos : List Repository) :
    (∀ res, getLanguages fetch repos = GoOutcome.ok res → res.2 = none) ∧
    ((∃ r ∈ repos, ∃ e, fetch r.fullName = Except.error e) →
      ∃ msg, getLanguages fetch repos = GoOutcome.fatal msg) :=
  ⟨fun res h => getLanguagesAux_ok_error_nil fetch repos [] res h,
   fun h => getLanguagesAux_fatal_of_failure fetch repos [] h⟩

/-- Witness for claim C10: a failing single-repository fetch makes the
modelled process die rather than return an error value. -/
theorem getLanguages_error_nil_or_fatal_witness :
    ∃ msg, getLanguages (fun _ => Except.error "boom") [⟨"a/x", 0⟩] =
      GoOutcome.fatal msg :=
  (getLanguages_error_nil_or_fatal (fun _ => Except.error "boom") [⟨"a/x", 0⟩]).2
    ⟨⟨"a/x", 0⟩, List.mem_cons_self _ _, "boom", rfl⟩

end GhLangs
